import Mathlib

/-!
Verification of the SORT tracking engine (`src/sort/tracker.py`).

The numeric idealization uses exact fields: the associator and geometry are
generic over a `LinearOrderedField` (instantiated at `ℚ` for executable
checks and at `ℝ` inside the Kalman pipeline, where `Real.sqrt` is needed).
Mutating numpy code becomes explicit state passing; `scipy`'s
`linear_sum_assignment` (an external exact solver) is modelled as a
brute-force exact minimum-cost assignment with deterministic
(first-encountered, lexicographic) tie-breaking.
-/

/-- An axis-aligned box `[x1, y1, x2, y2]`, the slice `bbox[:4]` of a
detection or tracker row. -/
structure Box (α : Type) where
  x1 : α
  y1 : α
  x2 : α
  y2 : α
deriving DecidableEq, Repr

instance {α : Type} [Zero α] : Inhabited (Box α) := ⟨⟨0, 0, 0, 0⟩⟩

section Assoc

variable {α : Type} [LinearOrderedField α]

/-- One entry of `iou_batch` (`tracker.py` lines 51-76): intersection over
union of two boxes, with width/height clamped at 0. -/
def iou (bb_test bb_gt : Box α) : α :=
  let xx1 := max bb_test.x1 bb_gt.x1
  let yy1 := max bb_test.y1 bb_gt.y1
  let xx2 := min bb_test.x2 bb_gt.x2
  let yy2 := min bb_test.y2 bb_gt.y2
  let w := max 0 (xx2 - xx1)
  let h := max 0 (yy2 - yy1)
  let wh := w * h
  wh / ((bb_test.x2 - bb_test.x1) * (bb_test.y2 - bb_test.y1)
        + (bb_gt.x2 - bb_gt.x1) * (bb_gt.y2 - bb_gt.y1) - wh)

/-- The dense `iou_matrix = iou_batch(detections, trackers)`: entry `(i, j)`
is the IoU of detection `i` with tracker `j`. -/
def iouMatrix (dets trks : List (Box α)) : ℕ → ℕ → α :=
  fun i j => iou (dets.getD i default) (trks.getD j default)

/-- Number of true entries of row `i` of the thresholded boolean matrix
`a = (iou_matrix > iou_threshold)`, i.e. `a.sum(1)[i]` over `m` columns. -/
def rowTrueCount (M : ℕ → ℕ → α) (τ : α) (m i : ℕ) : ℕ :=
  ((List.range m).filter (fun j => τ < M i j)).length

/-- Number of true entries of column `j` of the thresholded boolean matrix,
i.e. `a.sum(0)[j]` over `n` rows. -/
def colTrueCount (M : ℕ → ℕ → α) (τ : α) (n j : ℕ) : ℕ :=
  ((List.range n).filter (fun i => τ < M i j)).length

/-- The fast-path test `a.sum(1).max() == 1 and a.sum(0).max() == 1`
(`tracker.py` line 197): the maximum row sum and the maximum column sum of
the thresholded boolean matrix both equal exactly 1. -/
def fastPathCond (M : ℕ → ℕ → α) (τ : α) (n m : ℕ) : Prop :=
  ((List.range n).map (rowTrueCount M τ m)).foldr max 0 = 1 ∧
  ((List.range m).map (colTrueCount M τ n)).foldr max 0 = 1

instance (M : ℕ → ℕ → α) (τ : α) (n m : ℕ) : Decidable (fastPathCond M τ n m) :=
  inferInstanceAs (Decidable (_ ∧ _))

/-- `np.stack(np.where(a), axis=1)`: the positions of the true entries of
the thresholded matrix, in row-major order. -/
def whereTrue (M : ℕ → ℕ → α) (τ : α) (n m : ℕ) : List (ℕ × ℕ) :=
  (List.range n).flatMap
    (fun i => ((List.range m).filter (fun j => τ < M i j)).map (fun j => (i, j)))

/-- All maximum matchings pairing each element of `rows` with a distinct
element of `cols`, generated in lexicographic order of the chosen columns. -/
def allMatchings : List ℕ → List ℕ → List (List (ℕ × ℕ))
  | [], _ => [[]]
  | r :: rs, cols =>
      cols.flatMap (fun c => (allMatchings rs (cols.erase c)).map (fun ps => (r, c) :: ps))

/-- Total cost of one candidate assignment. -/
def matchingCost (cost : ℕ → ℕ → α) (ps : List (ℕ × ℕ)) : α :=
  (ps.map (fun p => cost p.1 p.2)).sum

/-- Left fold selecting a minimum-cost candidate; on ties the earlier
candidate wins, which makes the solver deterministic. -/
def pickBest (cost : ℕ → ℕ → α) (c : List (ℕ × ℕ)) (cs : List (List (ℕ × ℕ))) :
    List (ℕ × ℕ) :=
  cs.foldl (fun best x => if matchingCost cost x < matchingCost cost best then x else best) c

/-- Minimum-cost candidate of a list of candidate assignments, if any. -/
def argminCost (cost : ℕ → ℕ → α) : List (List (ℕ × ℕ)) → Option (List (ℕ × ℕ))
  | [] => none
  | c :: cs => some (pickBest cost c cs)

/-- Model of `linear_assignment` (`tracker.py` lines 39-48, wrapping
`scipy.optimize.linear_sum_assignment`): an exact minimum-cost complete
assignment of the smaller index set into the larger, as pairs
`(row, column)`. -/
def linear_assignment (cost : ℕ → ℕ → α) (n m : ℕ) : List (ℕ × ℕ) :=
  if n ≤ m then
    (argminCost cost (allMatchings (List.range n) (List.range m))).getD []
  else
    (argminCost cost
      ((allMatchings (List.range m) (List.range n)).map (fun ps => ps.map Prod.swap))).getD []

/-- The matching step of `associate_detections_to_trackers` (lines
194-202): fast path on unambiguous overlap, otherwise the exact solver on
the negated IoU matrix; empty when either side is empty. -/
def matchedStep (dets trks : List (Box α)) (τ : α) : List (ℕ × ℕ) :=
  let M := iouMatrix dets trks
  if 0 < min dets.length trks.length then
    if fastPathCond M τ dets.length trks.length then
      whereTrue M τ dets.length trks.length
    else
      linear_assignment (fun i j => -(M i j)) dets.length trks.length
  else []

/-- The matching step of the always-general variant: the exact solver is
run whenever both sides are non-empty, never the fast path. -/
def matchedStepGeneral (dets trks : List (Box α)) (τ : α) : List (ℕ × ℕ) :=
  let M := iouMatrix dets trks
  if 0 < min dets.length trks.length then
    linear_assignment (fun i j => -(M i j)) dets.length trks.length
  else []

/-- Result triple of the associator. -/
structure AssocResult where
  matched : List (ℕ × ℕ)
  unmatched_dets : List ℕ
  unmatched_trks : List ℕ
deriving DecidableEq, Repr

/-- The threshold post-filter loop (lines 212-220): walk the matched pairs
in order; a pair whose IoU is strictly below the threshold is pushed onto
both unmatched lists, any other pair is kept as a match. -/
def postFilter (M : ℕ → ℕ → α) (τ : α) : List (ℕ × ℕ) →
    List (ℕ × ℕ) × List ℕ × List ℕ
  | [] => ([], [], [])
  | p :: rest =>
      let r := postFilter M τ rest
      if M p.1 p.2 < τ then (r.1, p.1 :: r.2.1, p.2 :: r.2.2)
      else (p :: r.1, r.2.1, r.2.2)

/-- Helper assembling the associator output from a given matched-pairs
list: first-pass unmatched sets, then the threshold post-filter. -/
def assembleAssoc (dets trks : List (Box α)) (τ : α) (mi : List (ℕ × ℕ)) :
    AssocResult :=
  let M := iouMatrix dets trks
  let ud0 := (List.range dets.length).filter (fun d => mi.all (fun p => p.1 ≠ d))
  let ut0 := (List.range trks.length).filter (fun t => mi.all (fun p => p.2 ≠ t))
  let pf := postFilter M τ mi
  ⟨pf.1, ud0 ++ pf.2.1, ut0 ++ pf.2.2⟩

/-- `associate_detections_to_trackers` (lines 183-225): with no trackers,
every detection is unmatched; otherwise run the matching step and assemble
the filtered output. -/
def associate_detections_to_trackers (dets trks : List (Box α)) (τ : α) :
    AssocResult :=
  if trks.length = 0 then ⟨[], List.range dets.length, []⟩
  else assembleAssoc dets trks τ (matchedStep dets trks τ)

/-- The always-general variant of the associator, identical except that the
unambiguous-overlap fast path is never taken. -/
def associateGeneral (dets trks : List (Box α)) (τ : α) : AssocResult :=
  if trks.length = 0 then ⟨[], List.range dets.length, []⟩
  else assembleAssoc dets trks τ (matchedStepGeneral dets trks τ)

end Assoc

/-- `convert_bbox_to_z` (`tracker.py` lines 79-91): corner box to
`[cx, cy, area, aspect]`. -/
def convert_bbox_to_z {α : Type} [Field α] (bbox : Box α) : Fin 4 → α :=
  let w := bbox.x2 - bbox.x1
  let h := bbox.y2 - bbox.y1
  ![bbox.x1 + w / 2, bbox.y1 + h / 2, w * h, w / h]

/-- `convert_x_to_bbox` (`tracker.py` lines 94-104) on the observable slice
`x[:4]` of a state: `w = sqrt(s*r)`, `h = s/w`, box centred at `(x, y)`. -/
noncomputable def convert_x_to_bbox (x : Fin 4 → ℝ) : Box ℝ :=
  let w := Real.sqrt (x 2 * x 3)
  let h := x 2 / w
  ⟨x 0 - w / 2, x 1 - h / 2, x 0 + w / 2, x 1 + h / 2⟩

/-- The constant-velocity transition matrix `kf.F`. -/
def Fmat : Matrix (Fin 7) (Fin 7) ℝ :=
  !![1, 0, 0, 0, 1, 0, 0;
     0, 1, 0, 0, 0, 1, 0;
     0, 0, 1, 0, 0, 0, 1;
     0, 0, 0, 1, 0, 0, 0;
     0, 0, 0, 0, 1, 0, 0;
     0, 0, 0, 0, 0, 1, 0;
     0, 0, 0, 0, 0, 0, 1]

/-- The observation matrix `kf.H`: projection onto the first four state
components. -/
def Hmat : Matrix (Fin 4) (Fin 7) ℝ :=
  !![1, 0, 0, 0, 0, 0, 0;
     0, 1, 0, 0, 0, 0, 0;
     0, 0, 1, 0, 0, 0, 0;
     0, 0, 0, 1, 0, 0, 0]

/-- `kf.R` after `R[2:, 2:] *= 10`: observation noise `diag(1, 1, 10, 10)`. -/
def Rmat : Matrix (Fin 4) (Fin 4) ℝ :=
  !![1, 0, 0, 0;
     0, 1, 0, 0;
     0, 0, 10, 0;
     0, 0, 0, 10]

/-- `kf.P` after `P[4:, 4:] *= 1000; P *= 10`: initial covariance
`diag(10, 10, 10, 10, 10000, 10000, 10000)`. -/
def P0 : Matrix (Fin 7) (Fin 7) ℝ :=
  !![10, 0, 0, 0, 0, 0, 0;
     0, 10, 0, 0, 0, 0, 0;
     0, 0, 10, 0, 0, 0, 0;
     0, 0, 0, 10, 0, 0, 0;
     0, 0, 0, 0, 10000, 0, 0;
     0, 0, 0, 0, 0, 10000, 0;
     0, 0, 0, 0, 0, 0, 10000]

/-- `kf.Q` after `Q[-1, -1] *= 0.01; Q[4:, 4:] *= 0.01`: process noise
`diag(1, 1, 1, 1, 1/100, 1/100, 1/10000)`. -/
noncomputable def Qmat : Matrix (Fin 7) (Fin 7) ℝ :=
  !![1, 0, 0, 0, 0, 0, 0;
     0, 1, 0, 0, 0, 0, 0;
     0, 0, 1, 0, 0, 0, 0;
     0, 0, 0, 1, 0, 0, 0;
     0, 0, 0, 0, 1/100, 0, 0;
     0, 0, 0, 0, 0, 1/100, 0;
     0, 0, 0, 0, 0, 0, 1/10000]

/-- The standard linear Kalman correction as performed by
`filterpy.kalman.KalmanFilter.update`: innovation, gain from covariance and
observation noise, state and covariance update (Joseph form). -/
noncomputable def kfUpdate (x : Fin 7 → ℝ) (P : Matrix (Fin 7) (Fin 7) ℝ)
    (z : Fin 4 → ℝ) : (Fin 7 → ℝ) × Matrix (Fin 7) (Fin 7) ℝ :=
  let y := z - Hmat.mulVec x
  let S := Hmat * P * Hmat.transpose + Rmat
  let K := P * Hmat.transpose * S⁻¹
  let IKH := (1 : Matrix (Fin 7) (Fin 7) ℝ) - K * Hmat
  (x + K.mulVec y, IKH * P * IKH.transpose + K * Rmat * K.transpose)

/-- Internal state of one tracked object (`KalmanBoxTracker`): the
7-dimensional Kalman state and covariance, lifecycle counters, identity,
class and creation-time confidence. The `history` cache only feeds the
box returned by `predict`, which is modelled as a direct return value. -/
structure KalmanBoxTracker where
  x : Fin 7 → ℝ
  P : Matrix (Fin 7) (Fin 7) ℝ
  time_since_update : ℕ
  id : ℕ
  hits : ℕ
  hit_streak : ℕ
  age : ℕ
  conf : ℝ
  cls : ℤ

instance : Inhabited KalmanBoxTracker :=
  ⟨⟨fun _ => 0, 0, 0, 0, 0, 0, 0, 0, 0⟩⟩

/-- `KalmanBoxTracker.__init__` (lines 115-150): `x[:4]` seeded from the
detection box, velocities zero, counters zero; identity taken from the
class-level counter (threaded explicitly by the orchestrator model). -/
noncomputable def KalmanBoxTracker.mk0 (bbox : Box ℝ) (conf : ℝ) (cls : ℤ) (id : ℕ) :
    KalmanBoxTracker :=
  { x := ![convert_bbox_to_z bbox 0, convert_bbox_to_z bbox 1,
           convert_bbox_to_z bbox 2, convert_bbox_to_z bbox 3, 0, 0, 0],
    P := P0, time_since_update := 0, id := id, hits := 0, hit_streak := 0,
    age := 0, conf := conf, cls := cls }

/-- `KalmanBoxTracker.update` (lines 152-160): reset `time_since_update`,
bump `hits` and `hit_streak`, Kalman-correct with the observed box. -/
noncomputable def KalmanBoxTracker.update (t : KalmanBoxTracker) (bbox : Box ℝ) :
    KalmanBoxTracker :=
  let r := kfUpdate t.x t.P (convert_bbox_to_z bbox)
  { t with time_since_update := 0, hits := t.hits + 1,
           hit_streak := t.hit_streak + 1, x := r.1, P := r.2 }

/-- `KalmanBoxTracker.predict` (lines 162-174): zero the area velocity if
the predicted area would be non-positive, advance state and covariance,
bump `age`, reset `hit_streak` when the previous cycle went unmatched,
bump `time_since_update`, and return the predicted box. -/
noncomputable def KalmanBoxTracker.predict (t : KalmanBoxTracker) :
    KalmanBoxTracker × Box ℝ :=
  let xg := if t.x 6 + t.x 2 ≤ 0 then Function.update t.x 6 0 else t.x
  let x' := Fmat.mulVec xg
  let P' := Fmat * t.P * Fmat.transpose + Qmat
  ({ t with x := x', P := P', age := t.age + 1,
            hit_streak := if 0 < t.time_since_update then 0 else t.hit_streak,
            time_since_update := t.time_since_update + 1 },
   convert_x_to_bbox ![x' 0, x' 1, x' 2, x' 3])

/-- `KalmanBoxTracker.get_state` (lines 176-180): current state as a
corner-form box, without mutation. -/
noncomputable def KalmanBoxTracker.get_state (t : KalmanBoxTracker) : Box ℝ :=
  convert_x_to_bbox ![t.x 0, t.x 1, t.x 2, t.x 3]

/-- One detection row `[x1, y1, x2, y2, score, class_id]`; the class is
read through `int(...)` at track creation. -/
structure Det where
  box : Box ℝ
  score : ℝ
  class_id : ℤ

instance : Inhabited Det := ⟨⟨default, 0, 0⟩⟩

/-- State of the `SortTracker` orchestrator, plus the (process-wide)
`KalmanBoxTracker.count` identity counter threaded explicitly. -/
structure SortTracker where
  trackers : List KalmanBoxTracker
  frame_count : ℕ
  max_age : ℤ
  min_hits : ℤ
  iou_threshold : ℝ
  count : ℕ

/-- `SortTracker.__init__` (lines 229-240): reject a negative `max_age` or
`min_hits` (a failed `assert` raises), store the parameters as given. -/
def mkSortTracker (max_age min_hits : ℤ) (iou_threshold : ℝ) :
    Except String SortTracker :=
  if max_age < 0 then Except.error "Invalid max age for tracking"
  else if min_hits < 0 then Except.error "Invalid min_hits for tracking"
  else Except.ok ⟨[], 0, max_age, min_hits, iou_threshold, 0⟩

/-- The reporting test of `SortTracker.update` (line 285):
`time_since_update < 1 and (hit_streak >= min_hits or frame_count <= min_hits)`. -/
def reportCond (min_hits : ℤ) (fc : ℕ) (t : KalmanBoxTracker) : Prop :=
  (t.time_since_update : ℤ) < 1 ∧
    (min_hits ≤ (t.hit_streak : ℤ) ∨ (fc : ℤ) ≤ min_hits)

instance (min_hits : ℤ) (fc : ℕ) (t : KalmanBoxTracker) :
    Decidable (reportCond min_hits fc t) :=
  inferInstanceAs (Decidable (_ ∧ _))

/-- One reported row `[x1, y1, x2, y2, id+1, class_id, confidence]`
(line 286), the box coming from `get_state`. -/
noncomputable def makeRow (t : KalmanBoxTracker) : List ℝ :=
  let d := t.get_state
  [d.x1, d.y1, d.x2, d.y2, (t.id : ℝ) + 1, (t.cls : ℝ), t.conf]

/-- The live-track list after the predict, associate, match-update and
creation phases of `SortTracker.update` (lines 252-276), together with the
advanced identity counter. Over the exact reals every predicted coordinate
is finite, so the NaN mask of lines 258-264 keeps every row (the
finite-precision behaviour is modelled separately on `FVal`). -/
noncomputable def liveAfterAssoc (s : SortTracker) (dets : List Det) :
    List KalmanBoxTracker × ℕ :=
  let pred := s.trackers.map KalmanBoxTracker.predict
  let trackers₁ := pred.map Prod.fst
  let trkBoxes := pred.map Prod.snd
  let A := associate_detections_to_trackers (dets.map Det.box) trkBoxes
    s.iou_threshold
  let trackers₂ := A.matched.foldl
    (fun ts m => ts.set m.2 ((ts.getD m.2 default).update (dets.getD m.1 default).box))
    trackers₁
  A.unmatched_dets.foldl
    (fun acc i =>
      let d := dets.getD i default
      (acc.1 ++ [KalmanBoxTracker.mk0 d.box d.score d.class_id acc.2], acc.2 + 1))
    (trackers₂, s.count)

/-- `SortTracker.update` (lines 242-295): advance the frame counter, run
prediction/association/update/creation, emit the report rows walking the
live list in reverse, and prune tracks with `time_since_update > max_age`. -/
noncomputable def sortUpdate (s : SortTracker) (dets : List Det) :
    SortTracker × List (List ℝ) :=
  let fc := s.frame_count + 1
  let r := liveAfterAssoc { s with frame_count := fc } dets
  let rows := r.1.reverse.filterMap
    (fun t => if reportCond s.min_hits fc t then some (makeRow t) else none)
  let survivors := r.1.filter
    (fun t => decide (¬ s.max_age < (t.time_since_update : ℤ)))
  ({ s with trackers := survivors, frame_count := fc, count := r.2 }, rows)

/-- A floating-point value as observed by `np.isnan` / `np.ma.masked_invalid`:
finite (modelled exactly), an infinity, or NaN. -/
inductive FVal where
  | fin (q : ℚ)
  | pinf
  | ninf
  | nan
deriving DecidableEq, Repr

instance : Zero FVal := ⟨FVal.fin 0⟩

/-- `np.isnan` on one value. -/
def FVal.isnan : FVal → Bool
  | FVal.nan => true
  | _ => false

/-- Finiteness as used by `np.ma.masked_invalid`, which masks NaN and both
infinities. -/
def FVal.isfinite : FVal → Bool
  | FVal.fin _ => true
  | _ => false

/-- `np.any(np.isnan(pos))` on one predicted box. -/
def boxHasNan (b : Box FVal) : Bool :=
  b.x1.isnan || b.y1.isnan || b.x2.isnan || b.y2.isnan

/-- All four coordinates finite, i.e. the row survives
`np.ma.compress_rows(np.ma.masked_invalid(...))` (the appended fifth column
is the constant 0, which is always finite). -/
def boxFinite (b : Box FVal) : Bool :=
  b.x1.isfinite && b.y1.isfinite && b.x2.isfinite && b.y2.isfinite

/-- Model of the prediction-collection loop of `SortTracker.update` (lines
255-261): the indices appended to `to_del` are exactly those whose
predicted position contains a NaN. -/
def toDel (ps : List (Box FVal)) : List ℕ :=
  (List.range ps.length).filter (fun t => boxHasNan (ps.getD t default))

/-- Indices of the rows of `tracks` that remain in the association input
after `np.ma.compress_rows(np.ma.masked_invalid(tracks))` (line 262). -/
def assocInputIdx (ps : List (Box FVal)) : List ℕ :=
  (List.range ps.length).filter (fun t => boxFinite (ps.getD t default))

/-- Indices of the live tracks remaining after the
`for t in reversed(to_del): self.trackers.pop(t)` loop (lines 263-264). -/
def liveAfterPrune (ps : List (Box FVal)) : List ℕ :=
  (List.range ps.length).filter (fun t => !boxHasNan (ps.getD t default))

/-- Claim C7: converting a box with positive width and height to center
form and back to corner form returns the original box exactly. -/
theorem claim_C7_conversion_roundtrip (b : Box ℝ)
    (hw : b.x1 < b.x2) (hh : b.y1 < b.y2) :
    convert_x_to_bbox (convert_bbox_to_z b) = b := by
  have hw0 : (0:ℝ) < b.x2 - b.x1 := sub_pos.mpr hw
  have hh0 : (0:ℝ) < b.y2 - b.y1 := sub_pos.mpr hh
  obtain ⟨x1, y1, x2, y2⟩ := b
  simp only at hw0 hh0
  unfold convert_x_to_bbox convert_bbox_to_z
  simp only [Matrix.cons_val_zero, Matrix.cons_val_one, Matrix.head_cons,
    Matrix.cons_val_two, Matrix.cons_val_three, Matrix.tail_cons]
  have key : (x2 - x1) * (y2 - y1) * ((x2 - x1) / (y2 - y1)) = (x2 - x1) ^ 2 := by
    field_simp
    ring
  rw [key, Real.sqrt_sq hw0.le]
  have hx : x2 - x1 ≠ 0 := ne_of_gt hw0
  simp only [Box.mk.injEq]
  refine ⟨by ring, ?_, by ring, ?_⟩ <;> (field_simp; try ring)

/-- Witness for C7 at the concrete box `[0, 0, 2, 1]`. -/
theorem claim_C7_witness :
    (0:ℝ) < 2 ∧ convert_x_to_bbox (convert_bbox_to_z (⟨0, 0, 2, 1⟩ : Box ℝ)) =
      (⟨0, 0, 2, 1⟩ : Box ℝ) :=
  ⟨by norm_num, claim_C7_conversion_roundtrip ⟨0, 0, 2, 1⟩ (by norm_num) (by norm_num)⟩

/-- Claim C10: construction rejects a negative `max_age` or `min_hits`, but
performs no validation of `iou_threshold`: construction succeeds for every
threshold value, which is stored as given. -/
theorem claim_C10_constructor_validation :
    (∀ (ma mh : ℤ) (τ : ℝ), ma < 0 ∨ mh < 0 →
      ∃ e, mkSortTracker ma mh τ = Except.error e) ∧
    (∀ (ma mh : ℤ) (τ : ℝ), 0 ≤ ma → 0 ≤ mh →
      ∃ s, mkSortTracker ma mh τ = Except.ok s ∧ s.iou_threshold = τ ∧
        s.max_age = ma ∧ s.min_hits = mh) := by
  constructor
  · intro ma mh τ h
    unfold mkSortTracker
    rcases h with h | h
    · rw [if_pos h]
      exact ⟨_, rfl⟩
    · by_cases h2 : ma < 0
      · rw [if_pos h2]
        exact ⟨_, rfl⟩
      · rw [if_neg h2, if_pos h]
        exact ⟨_, rfl⟩
  · intro ma mh τ h1 h2
    unfold mkSortTracker
    rw [if_neg (not_lt.mpr h1), if_neg (not_lt.mpr h2)]
    exact ⟨_, rfl, rfl, rfl, rfl⟩

/-- Witness for C10: a negative `max_age` errors; an out-of-range threshold
of -2 is accepted and stored. -/
theorem claim_C10_witness :
    (∃ e, mkSortTracker (-1) 3 (1/2 : ℝ) = Except.error e) ∧
    (∃ s, mkSortTracker 1 3 (-2 : ℝ) = Except.ok s ∧ s.iou_threshold = -2 ∧
      s.max_age = 1 ∧ s.min_hits = 3) :=
  ⟨claim_C10_constructor_validation.1 (-1) 3 (1/2) (Or.inl (by norm_num)),
   claim_C10_constructor_validation.2 1 3 (-2) (by norm_num) (by norm_num)⟩

/-- One externally driven call on a track: the orchestrator only ever calls
`predict` and `update`. -/
inductive TrackOp where
  | predictOp : TrackOp
  | updateOp : Box ℝ → TrackOp

/-- Apply one call to a track. -/
noncomputable def applyOp (t : KalmanBoxTracker) : TrackOp → KalmanBoxTracker
  | TrackOp.predictOp => t.predict.1
  | TrackOp.updateOp b => t.update b

/-- Apply a sequence of calls to a track. -/
noncomputable def applyOps (t : KalmanBoxTracker) (ops : List TrackOp) :
    KalmanBoxTracker :=
  ops.foldl applyOp t

theorem applyOp_frozen (t : KalmanBoxTracker) (op : TrackOp) :
    (applyOp t op).id = t.id ∧ (applyOp t op).cls = t.cls ∧
      (applyOp t op).conf = t.conf := by
  cases op <;>
    simp [applyOp, KalmanBoxTracker.predict, KalmanBoxTracker.update]

theorem applyOps_frozen (ops : List TrackOp) : ∀ t : KalmanBoxTracker,
    (applyOps t ops).id = t.id ∧ (applyOps t ops).cls = t.cls ∧
      (applyOps t ops).conf = t.conf := by
  induction ops with
  | nil => intro t; exact ⟨rfl, rfl, rfl⟩
  | cons op rest ih =>
      intro t
      have h1 := applyOp_frozen t op
      have h2 := ih (applyOp t op)
      simp only [applyOps, List.foldl_cons] at h2 ⊢
      exact ⟨h2.1.trans h1.1, h2.2.1.trans h1.2.1, h2.2.2.trans h1.2.2⟩

/-- Claim C8: `update` never touches `id`, `cls` or `conf`, and over any
lifetime of predict/update calls a track keeps the identity, class and
confidence of the detection that created it. -/
theorem claim_C8_creation_values_frozen :
    (∀ (t : KalmanBoxTracker) (b : Box ℝ),
      (t.update b).id = t.id ∧ (t.update b).cls = t.cls ∧
        (t.update b).conf = t.conf) ∧
    (∀ (b : Box ℝ) (sc : ℝ) (cl : ℤ) (n : ℕ) (ops : List TrackOp),
      (applyOps (KalmanBoxTracker.mk0 b sc cl n) ops).id = n ∧
      (applyOps (KalmanBoxTracker.mk0 b sc cl n) ops).cls = cl ∧
      (applyOps (KalmanBoxTracker.mk0 b sc cl n) ops).conf = sc) := by
  constructor
  · intro t b
    simp [KalmanBoxTracker.update]
  · intro b sc cl n ops
    have h := applyOps_frozen ops (KalmanBoxTracker.mk0 b sc cl n)
    simpa [KalmanBoxTracker.mk0] using h

theorem applyOp_streak_reset (t : KalmanBoxTracker) (op : TrackOp)
    (h : 1 < (applyOp t op).time_since_update) :
    (applyOp t op).hit_streak = 0 := by
  cases op with
  | predictOp =>
      simp only [applyOp, KalmanBoxTracker.predict] at h ⊢
      have : 0 < t.time_since_update := by omega
      simp [this]
  | updateOp b =>
      simp [applyOp, KalmanBoxTracker.update] at h

/-- Claim C3 (amended): after any sequence of predict/update calls on a
fresh track, `time_since_update > 1` implies `hit_streak = 0` (the reset
lags one predict cycle, so `time_since_update = 1` can coexist with a
positive streak). -/
theorem claim_C3_amended_streak_reset (b : Box ℝ) (sc : ℝ) (cl : ℤ) (n : ℕ)
    (ops : List TrackOp)
    (h : 1 < (applyOps (KalmanBoxTracker.mk0 b sc cl n) ops).time_since_update) :
    (applyOps (KalmanBoxTracker.mk0 b sc cl n) ops).hit_streak = 0 := by
  suffices H : ∀ (ops : List TrackOp) (t : KalmanBoxTracker),
      (1 < t.time_since_update → t.hit_streak = 0) →
      1 < (applyOps t ops).time_since_update → (applyOps t ops).hit_streak = 0 by
    exact H ops _ (by simp [KalmanBoxTracker.mk0]) h
  intro ops
  induction ops with
  | nil => intro t ht h; exact ht h
  | cons op rest ih =>
      intro t ht h
      simp only [applyOps, List.foldl_cons] at h ⊢
      exact ih (applyOp t op) (fun h1 => applyOp_streak_reset t op h1) h

/-- Witness for C3 (amended): two predicts in a row reach
`time_since_update = 2` with a zero streak. -/
theorem claim_C3_amended_witness :
    1 < (applyOps (KalmanBoxTracker.mk0 ⟨0, 0, 4, 2⟩ 1 0 0)
          [TrackOp.predictOp, TrackOp.predictOp]).time_since_update ∧
    (applyOps (KalmanBoxTracker.mk0 ⟨0, 0, 4, 2⟩ 1 0 0)
          [TrackOp.predictOp, TrackOp.predictOp]).hit_streak = 0 :=
  ⟨by simp [applyOps, applyOp, KalmanBoxTracker.predict, KalmanBoxTracker.mk0],
   claim_C3_amended_streak_reset ⟨0, 0, 4, 2⟩ 1 0 0 _
     (by simp [applyOps, applyOp, KalmanBoxTracker.predict, KalmanBoxTracker.mk0])⟩

/-- Claim C4 counterexample: a predicted box containing `+Inf` (and no NaN)
is excluded from the association input, yet the track is not removed from
the live set, contradicting the claim that every non-finite prediction
kills its track immediately. -/
theorem claim_C4_counterexample :
    boxFinite (⟨FVal.pinf, 0, 0, 0⟩ : Box FVal) = false ∧
    0 ∉ assocInputIdx [(⟨FVal.pinf, 0, 0, 0⟩ : Box FVal)] ∧
    0 ∈ liveAfterPrune [(⟨FVal.pinf, 0, 0, 0⟩ : Box FVal)] := by decide

theorem boxFinite_no_nan (b : Box FVal) (h : boxFinite b = true) :
    boxHasNan b = false := by
  obtain ⟨a, c, d, e⟩ := b
  cases a <;> cases c <;> cases d <;> cases e <;>
    simp_all [boxFinite, boxHasNan, FVal.isfinite, FVal.isnan]

theorem boxHasNan_not_finite (b : Box FVal) (h : boxHasNan b = true) :
    boxFinite b = false := by
  obtain ⟨a, c, d, e⟩ := b
  cases a <;> cases c <;> cases d <;> cases e <;>
    simp_all [boxFinite, boxHasNan, FVal.isfinite, FVal.isnan]

/-- Claim C4 (amended): a NaN prediction is excluded from association and
its track removed immediately; an infinite (but NaN-free) prediction is
excluded from the association input while its track stays in the live set;
finite predictions keep their track in both. -/
theorem claim_C4_amended (ps : List (Box FVal)) (t : ℕ) (ht : t < ps.length) :
    (boxHasNan (ps.getD t default) = true →
      t ∉ assocInputIdx ps ∧ t ∉ liveAfterPrune ps) ∧
    (boxFinite (ps.getD t default) = false →
      boxHasNan (ps.getD t default) = false →
      t ∉ assocInputIdx ps ∧ t ∈ liveAfterPrune ps) ∧
    (boxFinite (ps.getD t default) = true →
      t ∈ assocInputIdx ps ∧ t ∈ liveAfterPrune ps) := by
  have hmem : t ∈ List.range ps.length := List.mem_range.mpr ht
  refine ⟨fun h => ⟨?_, ?_⟩, fun h1 h2 => ⟨?_, ?_⟩, fun h => ⟨?_, ?_⟩⟩
  · simp [assocInputIdx, List.mem_filter, boxHasNan_not_finite _ h,
      -List.getD_eq_getElem?_getD]
  · simp [liveAfterPrune, List.mem_filter, h, -List.getD_eq_getElem?_getD]
  · simp [assocInputIdx, List.mem_filter, h1, -List.getD_eq_getElem?_getD]
  · simp [liveAfterPrune, List.mem_filter, h2, hmem, -List.getD_eq_getElem?_getD]
  · simp [assocInputIdx, List.mem_filter, h, hmem, -List.getD_eq_getElem?_getD]
  · simp [liveAfterPrune, List.mem_filter, boxFinite_no_nan _ h, hmem,
      -List.getD_eq_getElem?_getD]


/-- Witness for C4 (amended) at a NaN box. -/
theorem claim_C4_witness :
    0 ∉ assocInputIdx [(⟨FVal.nan, 0, 0, 0⟩ : Box FVal)] ∧
    0 ∉ liveAfterPrune [(⟨FVal.nan, 0, 0, 0⟩ : Box FVal)] :=
  (claim_C4_amended [⟨FVal.nan, 0, 0, 0⟩] 0 (by decide)).1 (by decide)

theorem postFilter_matched_sub {α : Type} [LinearOrderedField α]
    (M : ℕ → ℕ → α) (τ : α) (mi : List (ℕ × ℕ)) :
    ∀ q ∈ (postFilter M τ mi).1, q ∈ mi ∧ ¬ M q.1 q.2 < τ := by
  induction mi with
  | nil => simp [postFilter]
  | cons p rest ih =>
      intro q hq
      by_cases hp : M p.1 p.2 < τ
      · simp only [postFilter, if_pos hp] at hq
        have := ih q hq
        exact ⟨List.mem_cons_of_mem _ this.1, this.2⟩
      · simp only [postFilter, if_neg hp, List.mem_cons] at hq
        rcases hq with rfl | hq
        · exact ⟨List.mem_cons_self _ _, hp⟩
        · have := ih q hq
          exact ⟨List.mem_cons_of_mem _ this.1, this.2⟩

theorem postFilter_rejected {α : Type} [LinearOrderedField α]
    (M : ℕ → ℕ → α) (τ : α) (mi : List (ℕ × ℕ)) :
    ∀ p ∈ mi, M p.1 p.2 < τ →
      p.1 ∈ (postFilter M τ mi).2.1 ∧ p.2 ∈ (postFilter M τ mi).2.2 := by
  induction mi with
  | nil => simp
  | cons q rest ih =>
      intro p hp hlt
      rcases List.mem_cons.mp hp with rfl | hp
      · simp only [postFilter, if_pos hlt]
        exact ⟨List.mem_cons_self _ _, List.mem_cons_self _ _⟩
      · by_cases hq : M q.1 q.2 < τ
        · simp only [postFilter, if_pos hq]
          exact ⟨List.mem_cons_of_mem _ (ih p hp hlt).1,
                 List.mem_cons_of_mem _ (ih p hp hlt).2⟩
        · simp only [postFilter, if_neg hq]
          exact ih p hp hlt

/-- Claim C2 counterexample: with `iou_threshold = 0` and disjoint boxes,
the solver pairs them (IoU = 0 = threshold) and the strict post-filter
(`iou < threshold`) keeps the pair, so a returned match has IoU equal to,
not strictly above, the threshold. -/
theorem claim_C2_counterexample :
    ¬ ∀ p ∈ (associate_detections_to_trackers
        [(⟨0, 0, 1, 1⟩ : Box ℚ)] [(⟨2, 2, 3, 3⟩ : Box ℚ)] 0).matched,
      (0 : ℚ) < iouMatrix [(⟨0, 0, 1, 1⟩ : Box ℚ)] [(⟨2, 2, 3, 3⟩ : Box ℚ)] p.1 p.2 := by
  intro h
  have heval : associate_detections_to_trackers
      [(⟨0, 0, 1, 1⟩ : Box ℚ)] [(⟨2, 2, 3, 3⟩ : Box ℚ)] 0 =
      ⟨[(0, 0)], [], []⟩ := by
    norm_num [associate_detections_to_trackers, assembleAssoc, matchedStep,
      fastPathCond, rowTrueCount, colTrueCount, whereTrue, linear_assignment,
      allMatchings, argminCost, pickBest, matchingCost, postFilter,
      iouMatrix, iou, List.getD, List.range_succ, max_def, min_def]
  have hmem : ((0 : ℕ), (0 : ℕ)) ∈ (associate_detections_to_trackers
      [(⟨0, 0, 1, 1⟩ : Box ℚ)] [(⟨2, 2, 3, 3⟩ : Box ℚ)] 0).matched := by
    rw [heval]
    exact List.mem_singleton.mpr rfl
  have hlt := h (0, 0) hmem
  norm_num [iouMatrix, iou, List.getD, max_def, min_def] at hlt

/-- Claim C2 (amended): a produced pair is rejected into both unmatched
sets exactly when its IoU is strictly below the threshold, so every
returned match has IoU greater than or equal to (not strictly greater
than) the threshold. -/
theorem claim_C2_amended {α : Type} [LinearOrderedField α]
    (dets trks : List (Box α)) (τ : α) :
    (∀ p ∈ matchedStep dets trks τ,
      iouMatrix dets trks p.1 p.2 < τ →
        p.1 ∈ (associate_detections_to_trackers dets trks τ).unmatched_dets ∧
        p.2 ∈ (associate_detections_to_trackers dets trks τ).unmatched_trks ∧
        p ∉ (associate_detections_to_trackers dets trks τ).matched) ∧
    (∀ p ∈ (associate_detections_to_trackers dets trks τ).matched,
      τ ≤ iouMatrix dets trks p.1 p.2) := by
  by_cases h0 : trks.length = 0
  · constructor
    · intro p hp
      simp [matchedStep, h0] at hp
    · intro p hp
      simp [associate_detections_to_trackers, h0] at hp
  · unfold associate_detections_to_trackers
    rw [if_neg h0]
    simp only [assembleAssoc]
    constructor
    · intro p hp hlt
      have hrej := postFilter_rejected (iouMatrix dets trks) τ _ p hp hlt
      refine ⟨List.mem_append_right _ hrej.1, List.mem_append_right _ hrej.2, ?_⟩
      intro hmem
      exact (postFilter_matched_sub (iouMatrix dets trks) τ _ p hmem).2 hlt
    · intro p hp
      exact not_lt.mp (postFilter_matched_sub (iouMatrix dets trks) τ _ p hp).2

/-- Witness for C2 (amended): a concrete frame where the optimal solver
assigns a below-threshold pair, which the post-filter pushes back into the
unmatched sets. -/
theorem claim_C2_witness :
    1 ∈ (associate_detections_to_trackers
      [(⟨0, 0, 10, 10⟩ : Box ℚ), ⟨14, 0, 24, 10⟩]
      [(⟨1, 0, 11, 10⟩ : Box ℚ), ⟨5, 0, 15, 10⟩] (3/10)).unmatched_dets ∧
    1 ∈ (associate_detections_to_trackers
      [(⟨0, 0, 10, 10⟩ : Box ℚ), ⟨14, 0, 24, 10⟩]
      [(⟨1, 0, 11, 10⟩ : Box ℚ), ⟨5, 0, 15, 10⟩] (3/10)).unmatched_trks ∧
    (1, 1) ∉ (associate_detections_to_trackers
      [(⟨0, 0, 10, 10⟩ : Box ℚ), ⟨14, 0, 24, 10⟩]
      [(⟨1, 0, 11, 10⟩ : Box ℚ), ⟨5, 0, 15, 10⟩] (3/10)).matched :=
  (claim_C2_amended
    [(⟨0, 0, 10, 10⟩ : Box ℚ), ⟨14, 0, 24, 10⟩]
    [(⟨1, 0, 11, 10⟩ : Box ℚ), ⟨5, 0, 15, 10⟩] (3/10)).1
    (1, 1)
    (by
      have hms : matchedStep
          [(⟨0, 0, 10, 10⟩ : Box ℚ), ⟨14, 0, 24, 10⟩]
          [(⟨1, 0, 11, 10⟩ : Box ℚ), ⟨5, 0, 15, 10⟩] (3/10) =
          [(0, 0), (1, 1)] := by
        norm_num [matchedStep, fastPathCond, rowTrueCount, colTrueCount,
          whereTrue, linear_assignment, allMatchings, argminCost, pickBest,
          matchingCost, iouMatrix, iou, List.getD, List.range_succ,
          max_def, min_def]
      rw [hms]
      simp)
    (by norm_num [iouMatrix, iou, List.getD, max_def, min_def])

/-- Claim C5 counterexample: a 2-detection, 2-track frame where the
fast-path condition holds, yet the fast path and the always-general solver
return different complete outputs: the solver prefers the two
threshold-value overlaps, whose total IoU beats the single strict overlap,
and the strict post-filter keeps them. -/
theorem claim_C5_counterexample :
    fastPathCond (iouMatrix
      [(⟨0, 0, 10, 10⟩ : Box ℚ), ⟨9, 0, 19, 10⟩]
      [(⟨4, 0, 14, 10⟩ : Box ℚ), ⟨-5, 0, 5, 10⟩]) (1/3) 2 2 ∧
    associate_detections_to_trackers
      [(⟨0, 0, 10, 10⟩ : Box ℚ), ⟨9, 0, 19, 10⟩]
      [(⟨4, 0, 14, 10⟩ : Box ℚ), ⟨-5, 0, 5, 10⟩] (1/3) ≠
    associateGeneral
      [(⟨0, 0, 10, 10⟩ : Box ℚ), ⟨9, 0, 19, 10⟩]
      [(⟨4, 0, 14, 10⟩ : Box ℚ), ⟨-5, 0, 5, 10⟩] (1/3) := by
  constructor
  · norm_num [fastPathCond, rowTrueCount, colTrueCount, iouMatrix, iou,
      List.getD, List.range_succ, max_def, min_def]
  · have h1 : associate_detections_to_trackers
        [(⟨0, 0, 10, 10⟩ : Box ℚ), ⟨9, 0, 19, 10⟩]
        [(⟨4, 0, 14, 10⟩ : Box ℚ), ⟨-5, 0, 5, 10⟩] (1/3) =
        ⟨[(0, 0)], [1], [1]⟩ := by
      norm_num [associate_detections_to_trackers, assembleAssoc, matchedStep,
        fastPathCond, rowTrueCount, colTrueCount, whereTrue, linear_assignment,
        allMatchings, argminCost, pickBest, matchingCost, postFilter,
        iouMatrix, iou, List.getD, List.range_succ, max_def, min_def]
    have h2 : associateGeneral
        [(⟨0, 0, 10, 10⟩ : Box ℚ), ⟨9, 0, 19, 10⟩]
        [(⟨4, 0, 14, 10⟩ : Box ℚ), ⟨-5, 0, 5, 10⟩] (1/3) =
        ⟨[(0, 1), (1, 0)], [], []⟩ := by
      norm_num [associateGeneral, assembleAssoc, matchedStepGeneral,
        linear_assignment, allMatchings, argminCost, pickBest, matchingCost,
        postFilter, iouMatrix, iou, List.getD, List.range_succ, max_def, min_def]
    rw [h1, h2]
    simp

section PartitionLemmas

variable {α : Type} [LinearOrderedField α]

theorem count_filter_eq (a : ℕ) (p : ℕ → Bool) (l : List ℕ) :
    (l.filter p).count a = if p a then l.count a else 0 := by
  induction l with
  | nil => simp
  | cons x xs ih =>
      by_cases hx : p x
      · by_cases hxa : x = a
        · subst hxa
          simp [List.filter_cons, hx, List.count_cons, ih]
        · simp [List.filter_cons, hx, List.count_cons, hxa, ih]
      · by_cases hxa : x = a
        · subst hxa
          simp [List.filter_cons, hx, List.count_cons, ih]
        · simp [List.filter_cons, hx, List.count_cons, hxa, ih]

theorem foldr_max_bound {l : List ℕ} {k : ℕ} (h : l.foldr max 0 = k) :
    ∀ x ∈ l, x ≤ k := by
  induction l generalizing k with
  | nil => simp
  | cons y ys ih =>
      intro x hx
      simp only [List.foldr_cons] at h
      rcases List.mem_cons.mp hx with rfl | hx
      · exact h ▸ le_max_left _ _
      · exact le_trans (ih rfl x hx) (h ▸ le_max_right _ _)

theorem mem_whereTrue (M : ℕ → ℕ → α) (τ : α) (n m : ℕ) (p : ℕ × ℕ)
    (hp : p ∈ whereTrue M τ n m) : p.1 < n ∧ p.2 < m ∧ τ < M p.1 p.2 := by
  simp only [whereTrue, List.mem_flatMap, List.mem_map, List.mem_filter,
    List.mem_range] at hp
  obtain ⟨i, hi, j, ⟨hj, hMij⟩, rfl⟩ := hp
  exact ⟨hi, hj, by simpa using hMij⟩

theorem whereTrue_fst_nodup (M : ℕ → ℕ → α) (τ : α) (n m : ℕ)
    (h : ∀ i < n, rowTrueCount M τ m i ≤ 1) :
    ((whereTrue M τ n m).map Prod.fst).Nodup := by
  unfold whereTrue
  have key : ∀ l : List ℕ, l.Nodup → (∀ i ∈ l, rowTrueCount M τ m i ≤ 1) →
      ((l.flatMap (fun i => ((List.range m).filter (fun j => τ < M i j)).map
        (fun j => (i, j)))).map Prod.fst).Nodup := by
    intro l hl hcnt
    induction l with
    | nil => simp
    | cons i rest ih =>
        simp only [List.flatMap_cons, List.map_append, List.nodup_append]
        refine ⟨?_, ih (List.Nodup.of_cons hl)
          (fun i hi => hcnt i (List.mem_cons_of_mem _ hi)), ?_⟩
        · have hlen : ((List.range m).filter (fun j => τ < M i j)).length ≤ 1 :=
            hcnt i (List.mem_cons_self _ _)
          rcases hc : (List.range m).filter (fun j => τ < M i j) with _ | ⟨j, rest2⟩
          · simp
          · rw [hc] at hlen
            simp only [List.length_cons] at hlen
            have : rest2 = [] := List.eq_nil_of_length_eq_zero (by omega)
            subst this
            simp
        · intro a ha hb
          have ha' : a = i := by
            rw [List.map_map] at ha
            rcases List.mem_map.mp ha with ⟨j, hj, hji⟩
            exact hji.symm
          subst ha'
          rcases List.mem_map.mp hb with ⟨q, hq, hqa⟩
          rcases List.mem_flatMap.mp hq with ⟨i2, hi2, hq2⟩
          rcases List.mem_map.mp hq2 with ⟨j2, hj2, hq3⟩
          rw [← hq3] at hqa
          simp only at hqa
          rw [hqa] at hi2
          exact (List.nodup_cons.mp hl).1 hi2
  exact key (List.range n) (List.nodup_range n)
    (fun i hi => h i (List.mem_range.mp hi))

theorem whereTrue_snd_count (M : ℕ → ℕ → α) (τ : α) (n m : ℕ) (j : ℕ) :
    ((whereTrue M τ n m).map Prod.snd).count j ≤ colTrueCount M τ n j := by
  unfold whereTrue colTrueCount
  have key : ∀ l : List ℕ,
      ((l.flatMap (fun i => ((List.range m).filter (fun jj => τ < M i jj)).map
        (fun jj => (i, jj)))).map Prod.snd).count j ≤
      (l.filter (fun i => τ < M i j)).length := by
    intro l
    induction l with
    | nil => simp
    | cons i rest ih =>
        simp only [List.flatMap_cons, List.map_append, List.count_append]
        have hmapsnd : (((List.range m).filter (fun jj => τ < M i jj)).map
            (fun jj => (i, jj))).map Prod.snd =
            (List.range m).filter (fun jj => τ < M i jj) := by
          rw [List.map_map]
          simp [Function.comp]
        rw [hmapsnd, count_filter_eq]
        by_cases hj : τ < M i j
        · have hcr : (List.range m).count j ≤ 1 :=
            List.nodup_iff_count_le_one.mp (List.nodup_range m) j
          simp only [List.filter_cons, hj, List.length_cons]
          simp only [decide_eq_true_eq, if_pos hj]
          simp only [hj, if_true, List.length_cons]
          omega
        · simp only [List.filter_cons, hj]
          simp only [decide_eq_true_eq, if_neg hj]
          simp only [hj, if_false]
          omega
  exact key (List.range n)

theorem whereTrue_snd_nodup (M : ℕ → ℕ → α) (τ : α) (n m : ℕ)
    (h : ∀ j < m, colTrueCount M τ n j ≤ 1) :
    ((whereTrue M τ n m).map Prod.snd).Nodup := by
  rw [List.nodup_iff_count_le_one]
  intro j
  by_cases hj : j < m
  · exact le_trans (whereTrue_snd_count M τ n m j) (h j hj)
  · have hnot : j ∉ (whereTrue M τ n m).map Prod.snd := by
      intro hmem
      rcases List.mem_map.mp hmem with ⟨p, hp, rfl⟩
      exact hj (mem_whereTrue M τ n m p hp).2.1
    simp [List.count_eq_zero_of_not_mem hnot]

end PartitionLemmas

section SolverLemmas

variable {α : Type} [LinearOrderedField α]

theorem allMatchings_spec (rows : List ℕ) : ∀ (cols : List ℕ), cols.Nodup →
    ∀ ps ∈ allMatchings rows cols,
      ps.map Prod.fst = rows ∧ (ps.map Prod.snd).Nodup ∧
        ∀ p ∈ ps, p.2 ∈ cols := by
  induction rows with
  | nil =>
      intro cols _ ps hps
      simp only [allMatchings, List.mem_singleton] at hps
      subst hps
      simp
  | cons r rs ih =>
      intro cols hcols ps hps
      simp only [allMatchings, List.mem_flatMap, List.mem_map] at hps
      obtain ⟨c, hc, qs, hqs, rfl⟩ := hps
      have herase : (cols.erase c).Nodup := hcols.erase c
      obtain ⟨hfst, hsnd, hmem⟩ := ih (cols.erase c) herase qs hqs
      refine ⟨by simp [hfst], ?_, ?_⟩
      · simp only [List.map_cons, List.nodup_cons]
        refine ⟨fun hcmem => ?_, hsnd⟩
        · rcases List.mem_map.mp hcmem with ⟨p, hp, hpc⟩
          have := hmem p hp
          rw [hpc] at this
          exact (List.Nodup.not_mem_erase hcols) this
      · intro p hp
        rcases List.mem_cons.mp hp with rfl | hp
        · exact hc
        · exact List.mem_of_mem_erase (hmem p hp)

theorem pickBest_mem (cost : ℕ → ℕ → α) (cs : List (List (ℕ × ℕ))) :
    ∀ c, pickBest cost c cs ∈ c :: cs := by
  induction cs with
  | nil => intro c; simp [pickBest]
  | cons x xs ih =>
      intro c
      simp only [pickBest, List.foldl_cons]
      by_cases hx : matchingCost cost x < matchingCost cost c
      · rw [if_pos hx]
        have := ih x
        simp only [pickBest] at this
        rcases List.mem_cons.mp this with h | h
        · rw [h]; simp
        · simp [h]
      · rw [if_neg hx]
        have := ih c
        simp only [pickBest] at this
        rcases List.mem_cons.mp this with h | h
        · rw [h]; simp
        · simp [h]

theorem argminCost_mem (cost : ℕ → ℕ → α) (cands : List (List (ℕ × ℕ)))
    (r : List (ℕ × ℕ)) (h : argminCost cost cands = some r) : r ∈ cands := by
  cases cands with
  | nil => simp [argminCost] at h
  | cons c cs =>
      simp only [argminCost, Option.some.injEq] at h
      subst h
      exact pickBest_mem cost cs c

/-- Well-formedness of a matched-pairs list for `n` detections and `m`
trackers: distinct on both sides, indices in range. -/
def GoodPairs (n m : ℕ) (L : List (ℕ × ℕ)) : Prop :=
  (L.map Prod.fst).Nodup ∧ (L.map Prod.snd).Nodup ∧
    ∀ p ∈ L, p.1 < n ∧ p.2 < m

theorem linear_assignment_good (cost : ℕ → ℕ → α) (n m : ℕ) :
    GoodPairs n m (linear_assignment cost n m) := by
  unfold linear_assignment
  by_cases hnm : n ≤ m
  · rw [if_pos hnm]
    cases hr : argminCost cost (allMatchings (List.range n) (List.range m)) with
    | none => exact ⟨by simp, by simp, by simp⟩
    | some r =>
        have hmem := argminCost_mem cost _ r hr
        obtain ⟨hfst, hsnd, hcols⟩ :=
          allMatchings_spec (List.range n) (List.range m) (List.nodup_range m) r hmem
        simp only [Option.getD_some]
        refine ⟨by rw [hfst]; exact List.nodup_range n, hsnd, ?_⟩
        intro p hp
        constructor
        · have : p.1 ∈ r.map Prod.fst := List.mem_map_of_mem _ hp
          rw [hfst] at this
          exact List.mem_range.mp this
        · exact List.mem_range.mp (hcols p hp)
  · rw [if_neg hnm]
    cases hr : argminCost cost
        ((allMatchings (List.range m) (List.range n)).map
          (fun ps => ps.map Prod.swap)) with
    | none => exact ⟨by simp, by simp, by simp⟩
    | some r =>
        have hmem := argminCost_mem cost _ r hr
        rcases List.mem_map.mp hmem with ⟨ps, hps, rfl⟩
        obtain ⟨hfst, hsnd, hcols⟩ :=
          allMatchings_spec (List.range m) (List.range n) (List.nodup_range n) ps hps
        simp only [Option.getD_some]
        have hswapfst : (ps.map Prod.swap).map Prod.fst = ps.map Prod.snd := by
          rw [List.map_map]; rfl
        have hswapsnd : (ps.map Prod.swap).map Prod.snd = ps.map Prod.fst := by
          rw [List.map_map]; rfl
        refine ⟨by rw [hswapfst]; exact hsnd,
                by rw [hswapsnd, hfst]; exact List.nodup_range m, ?_⟩
        intro p hp
        rcases List.mem_map.mp hp with ⟨q, hq, rfl⟩
        constructor
        · exact List.mem_range.mp (hcols q hq)
        · have : q.1 ∈ ps.map Prod.fst := List.mem_map_of_mem _ hq
          rw [hfst] at this
          exact List.mem_range.mp this

theorem matchedStep_good (dets trks : List (Box α)) (τ : α) :
    GoodPairs dets.length trks.length (matchedStep dets trks τ) := by
  unfold matchedStep
  by_cases hmin : 0 < min dets.length trks.length
  · rw [if_pos hmin]
    by_cases hfp : fastPathCond (iouMatrix dets trks) τ dets.length trks.length
    · rw [if_pos hfp]
      obtain ⟨hrow, hcol⟩ := hfp
      refine ⟨?_, ?_, ?_⟩
      · exact whereTrue_fst_nodup _ _ _ _ (fun i hi =>
          foldr_max_bound hrow _ (List.mem_map_of_mem _ (List.mem_range.mpr hi)))
      · exact whereTrue_snd_nodup _ _ _ _ (fun j hj =>
          foldr_max_bound hcol _ (List.mem_map_of_mem _ (List.mem_range.mpr hj)))
      · intro p hp
        have := mem_whereTrue _ _ _ _ p hp
        exact ⟨this.1, this.2.1⟩
    · rw [if_neg hfp]
      exact linear_assignment_good _ _ _
  · rw [if_neg hmin]
    exact ⟨by simp, by simp, by simp⟩

end SolverLemmas

section PartitionMain

variable {α : Type} [LinearOrderedField α]

theorem postFilter_sublist (M : ℕ → ℕ → α) (τ : α) :
    ∀ mi : List (ℕ × ℕ), (postFilter M τ mi).1.Sublist mi := by
  intro mi
  induction mi with
  | nil => simp [postFilter]
  | cons p rest ih =>
      by_cases hp : M p.1 p.2 < τ
      · simp only [postFilter, if_pos hp]
        exact ih.cons p
      · simp only [postFilter, if_neg hp]
        exact ih.cons₂ p

theorem postFilter_perm_fst (M : ℕ → ℕ → α) (τ : α) :
    ∀ mi : List (ℕ × ℕ),
      ((postFilter M τ mi).1.map Prod.fst ++ (postFilter M τ mi).2.1).Perm
        (mi.map Prod.fst) := by
  intro mi
  induction mi with
  | nil => simp [postFilter]
  | cons p rest ih =>
      by_cases hp : M p.1 p.2 < τ
      · simp only [postFilter, if_pos hp, List.map_cons]
        exact (List.perm_middle).trans (ih.cons p.1)
      · simp only [postFilter, if_neg hp, List.map_cons, List.cons_append]
        exact ih.cons p.1

theorem postFilter_perm_snd (M : ℕ → ℕ → α) (τ : α) :
    ∀ mi : List (ℕ × ℕ),
      ((postFilter M τ mi).1.map Prod.snd ++ (postFilter M τ mi).2.2).Perm
        (mi.map Prod.snd) := by
  intro mi
  induction mi with
  | nil => simp [postFilter]
  | cons p rest ih =>
      by_cases hp : M p.1 p.2 < τ
      · simp only [postFilter, if_pos hp, List.map_cons]
        exact (List.perm_middle).trans (ih.cons p.2)
      · simp only [postFilter, if_neg hp, List.map_cons, List.cons_append]
        exact ih.cons p.2

theorem cover_perm (n : ℕ) (l : List ℕ) (hn : l.Nodup)
    (hsub : ∀ x ∈ l, x < n) :
    (l ++ (List.range n).filter (fun d => !(decide (d ∈ l)))).Perm
      (List.range n) := by
  rw [List.perm_iff_count]
  intro a
  rw [List.count_append, count_filter_eq]
  by_cases ha : a ∈ l
  · rw [List.count_eq_one_of_mem hn ha]
    simp only [ha, decide_true_eq_true]
    norm_num
    exact (List.count_eq_one_of_mem (List.nodup_range n)
      (List.mem_range.mpr (hsub a ha))).symm
  · rw [List.count_eq_zero_of_not_mem ha]
    simp only [ha, decide_false_eq_false]
    norm_num

theorem unmatched_filter_eq (mi : List (ℕ × ℕ))
    (f : ℕ × ℕ → ℕ) :
    ∀ l : List ℕ, l.filter (fun d => mi.all (fun p => f p ≠ d)) =
      l.filter (fun d => !(decide (d ∈ mi.map f))) := by
  intro l
  apply List.filter_congr
  intro d _
  by_cases hd : d ∈ mi.map f
  · rcases List.mem_map.mp hd with ⟨p, hp, rfl⟩
    have hfalse : (mi.all fun q => decide (f q ≠ f p)) = false := by
      cases hall : mi.all (fun q => decide (f q ≠ f p)) with
      | false => rfl
      | true =>
          exfalso
          have := List.all_eq_true.mp hall p hp
          simp at this
    rw [hfalse]
    simp [hd]
  · have : mi.all (fun q => f q ≠ d) = true := by
      rw [List.all_eq_true]
      intro p hp
      simp only [ne_eq, decide_eq_true_eq]
      intro hc
      exact hd (List.mem_map.mpr ⟨p, hp, hc⟩)
    rw [this]
    simp [hd]

/-- Claim C6: the associator's three outputs partition the index sets:
`matched ++ unmatched_detections` is a permutation of all detection
indices, `matched ++ unmatched_trackers` of all tracker indices, and the
matched pairs are unique on both sides. -/
theorem claim_C6_partition (dets trks : List (Box α)) (τ : α) :
    (((associate_detections_to_trackers dets trks τ).matched.map Prod.fst ++
      (associate_detections_to_trackers dets trks τ).unmatched_dets).Perm
        (List.range dets.length)) ∧
    (((associate_detections_to_trackers dets trks τ).matched.map Prod.snd ++
      (associate_detections_to_trackers dets trks τ).unmatched_trks).Perm
        (List.range trks.length)) ∧
    ((associate_detections_to_trackers dets trks τ).matched.map Prod.fst).Nodup ∧
    ((associate_detections_to_trackers dets trks τ).matched.map Prod.snd).Nodup := by
  by_cases h0 : trks.length = 0
  · refine ⟨?_, ?_, ?_, ?_⟩ <;>
      simp [associate_detections_to_trackers, h0]
  · obtain ⟨gfst, gsnd, gbound⟩ := matchedStep_good dets trks τ
    unfold associate_detections_to_trackers
    rw [if_neg h0]
    simp only [assembleAssoc]
    have hud0 := unmatched_filter_eq (matchedStep dets trks τ) Prod.fst
      (List.range dets.length)
    have hut0 := unmatched_filter_eq (matchedStep dets trks τ) Prod.snd
      (List.range trks.length)
    have hboundf : ∀ x ∈ (matchedStep dets trks τ).map Prod.fst,
        x < dets.length := by
      intro x hx
      rcases List.mem_map.mp hx with ⟨p, hp, rfl⟩
      exact (gbound p hp).1
    have hbounds : ∀ x ∈ (matchedStep dets trks τ).map Prod.snd,
        x < trks.length := by
      intro x hx
      rcases List.mem_map.mp hx with ⟨p, hp, rfl⟩
      exact (gbound p hp).2
    refine ⟨?_, ?_, ?_, ?_⟩
    · have s1 : ((postFilter (iouMatrix dets trks) τ (matchedStep dets trks τ)).1.map
          Prod.fst ++
          ((List.range dets.length).filter
            (fun d => (matchedStep dets trks τ).all (fun p => p.1 ≠ d)) ++
          (postFilter (iouMatrix dets trks) τ (matchedStep dets trks τ)).2.1)).Perm
          ((matchedStep dets trks τ).map Prod.fst ++
          (List.range dets.length).filter
            (fun d => (matchedStep dets trks τ).all (fun p => p.1 ≠ d))) := by
        have a1 := List.Perm.append_left
          ((postFilter (iouMatrix dets trks) τ (matchedStep dets trks τ)).1.map Prod.fst)
          (@List.perm_append_comm ℕ
            ((List.range dets.length).filter
              (fun d => (matchedStep dets trks τ).all (fun p => p.1 ≠ d)))
            ((postFilter (iouMatrix dets trks) τ (matchedStep dets trks τ)).2.1))
        have a2 := List.Perm.append_right
          ((List.range dets.length).filter
            (fun d => (matchedStep dets trks τ).all (fun p => p.1 ≠ d)))
          (postFilter_perm_fst (iouMatrix dets trks) τ (matchedStep dets trks τ))
        refine a1.trans ?_
        rw [← List.append_assoc]
        exact a2
      refine s1.trans ?_
      rw [hud0]
      exact cover_perm _ _ gfst hboundf
    · have s1 : ((postFilter (iouMatrix dets trks) τ (matchedStep dets trks τ)).1.map
          Prod.snd ++
          ((List.range trks.length).filter
            (fun t => (matchedStep dets trks τ).all (fun p => p.2 ≠ t)) ++
          (postFilter (iouMatrix dets trks) τ (matchedStep dets trks τ)).2.2)).Perm
          ((matchedStep dets trks τ).map Prod.snd ++
          (List.range trks.length).filter
            (fun t => (matchedStep dets trks τ).all (fun p => p.2 ≠ t))) := by
        have a1 := List.Perm.append_left
          ((postFilter (iouMatrix dets trks) τ (matchedStep dets trks τ)).1.map Prod.snd)
          (@List.perm_append_comm ℕ
            ((List.range trks.length).filter
              (fun t => (matchedStep dets trks τ).all (fun p => p.2 ≠ t)))
            ((postFilter (iouMatrix dets trks) τ (matchedStep dets trks τ)).2.2))
        have a2 := List.Perm.append_right
          ((List.range trks.length).filter
            (fun t => (matchedStep dets trks τ).all (fun p => p.2 ≠ t)))
          (postFilter_perm_snd (iouMatrix dets trks) τ (matchedStep dets trks τ))
        refine a1.trans ?_
        rw [← List.append_assoc]
        exact a2
      refine s1.trans ?_
      rw [hut0]
      exact cover_perm _ _ gsnd hbounds
    · exact gfst.sublist
        ((postFilter_sublist (iouMatrix dets trks) τ (matchedStep dets trks τ)).map
          Prod.fst)
    · exact gsnd.sublist
        ((postFilter_sublist (iouMatrix dets trks) τ (matchedStep dets trks τ)).map
          Prod.snd)

end PartitionMain

section DemoScenario

/-- The unchanging demo detection box `[0, 0, 4, 2]` used for the concrete
warm-up-window scenario. -/
noncomputable def demoBox : Box ℝ := ⟨0, 0, 4, 2⟩

/-- The demo detection: the box above with score 1 and class 7. -/
noncomputable def demoDet : Det := ⟨⟨0, 0, 4, 2⟩, 1, 7⟩

/-- The stationary filter state seeded from the demo box: centre `(2, 1)`,
area 8, aspect 2, zero velocities. -/
noncomputable def stateVec0 : Fin 7 → ℝ := ![2, 1, 8, 2, 0, 0, 0]

/-- A fresh `SortTracker(max_age=1, min_hits=3, iou_threshold=0.3)`. -/
noncomputable def demoState : SortTracker := ⟨[], 0, 1, 3, 3/10, 0⟩

theorem convert_z_demo : convert_bbox_to_z demoBox = ![2, 1, 8, 2] := by
  unfold convert_bbox_to_z demoBox
  simp only [Matrix.vecCons, Fin.cons_eq_cons]
  norm_num

theorem convert_x_demo : convert_x_to_bbox ![2, 1, 8, 2] = demoBox := by
  unfold convert_x_to_bbox demoBox
  have h1 : ((![2, 1, 8, 2] : Fin 4 → ℝ) 2) * (![2, 1, 8, 2] 3) = 4 ^ 2 := by
    norm_num
  rw [h1, Real.sqrt_sq (by norm_num)]
  simp only [Box.mk.injEq]
  norm_num

theorem Fmat_fix : Fmat.mulVec stateVec0 = stateVec0 := by
  unfold Fmat stateVec0
  simp only [Matrix.cons_mulVec, Matrix.cons_dotProduct_cons,
    Matrix.dotProduct_empty]
  simp only [Matrix.vecCons, Fin.cons_eq_cons]
  norm_num

theorem Hmat_fix : Hmat.mulVec stateVec0 = ![2, 1, 8, 2] := by
  unfold Hmat stateVec0
  simp only [Matrix.cons_mulVec, Matrix.cons_dotProduct_cons,
    Matrix.dotProduct_empty]
  simp only [Matrix.vecCons, Fin.cons_eq_cons]
  norm_num

theorem stationary_predict (t : KalmanBoxTracker) (hx : t.x = stateVec0) :
    (t.predict).1.x = stateVec0 ∧ (t.predict).2 = demoBox ∧
    (t.predict).1.time_since_update = t.time_since_update + 1 ∧
    (t.predict).1.hit_streak =
      (if 0 < t.time_since_update then 0 else t.hit_streak) ∧
    (t.predict).1.id = t.id ∧ (t.predict).1.cls = t.cls ∧
    (t.predict).1.conf = t.conf := by
  have hguard : ¬ (t.x 6 + t.x 2 ≤ 0) := by
    rw [hx]
    show ¬ ((0 : ℝ) + 8 ≤ 0)
    norm_num
  have hxg : (if t.x 6 + t.x 2 ≤ 0 then Function.update t.x 6 0 else t.x) = t.x :=
    if_neg hguard
  have hx' : Fmat.mulVec (if t.x 6 + t.x 2 ≤ 0 then Function.update t.x 6 0
      else t.x) = stateVec0 := by
    rw [hxg, hx, Fmat_fix]
  unfold KalmanBoxTracker.predict
  refine ⟨hx', ?_, rfl, rfl, rfl, rfl, rfl⟩
  simp only [hx']
  have hproj : (![stateVec0 0, stateVec0 1, stateVec0 2, stateVec0 3] :
      Fin 4 → ℝ) = ![2, 1, 8, 2] := by
    show (![(2:ℝ), 1, 8, 2] : Fin 4 → ℝ) = ![2, 1, 8, 2]
    rfl
  rw [hproj, convert_x_demo]

theorem stationary_update (t : KalmanBoxTracker) (hx : t.x = stateVec0) :
    (t.update demoBox).x = stateVec0 ∧
    (t.update demoBox).time_since_update = 0 ∧
    (t.update demoBox).hit_streak = t.hit_streak + 1 ∧
    (t.update demoBox).hits = t.hits + 1 ∧
    (t.update demoBox).id = t.id ∧ (t.update demoBox).cls = t.cls ∧
    (t.update demoBox).conf = t.conf := by
  have hy : convert_bbox_to_z demoBox - Hmat.mulVec stateVec0 = 0 := by
    rw [convert_z_demo, Hmat_fix, sub_self]
  unfold KalmanBoxTracker.update kfUpdate
  refine ⟨?_, rfl, rfl, rfl, rfl, rfl, rfl⟩
  simp only [hx, hy, Matrix.mulVec_zero, add_zero]

theorem stationary_get_state (t : KalmanBoxTracker) (hx : t.x = stateVec0) :
    t.get_state = demoBox := by
  unfold KalmanBoxTracker.get_state
  rw [hx]
  have hproj : (![stateVec0 0, stateVec0 1, stateVec0 2, stateVec0 3] :
      Fin 4 → ℝ) = ![2, 1, 8, 2] := by
    show (![(2:ℝ), 1, 8, 2] : Fin 4 → ℝ) = ![2, 1, 8, 2]
    rfl
  rw [hproj, convert_x_demo]

theorem associate_no_trackers {α : Type} [LinearOrderedField α]
    (ds : List (Box α)) (τ : α) :
    associate_detections_to_trackers ds [] τ =
      ⟨[], List.range ds.length, []⟩ := by
  simp [associate_detections_to_trackers]

theorem associate_no_dets {α : Type} [LinearOrderedField α] (b : Box α) (τ : α) :
    associate_detections_to_trackers [] [b] τ = ⟨[], [], [0]⟩ := by
  simp [associate_detections_to_trackers, assembleAssoc, matchedStep,
    postFilter, List.range_succ]

theorem associate_demo :
    associate_detections_to_trackers [demoBox] [demoBox] ((3 : ℝ)/10) =
      ⟨[(0, 0)], [], []⟩ := by
  norm_num [demoBox, associate_detections_to_trackers, assembleAssoc,
    matchedStep, fastPathCond, rowTrueCount, colTrueCount, whereTrue,
    linear_assignment, allMatchings, argminCost, pickBest, matchingCost,
    postFilter, iouMatrix, iou, List.getD, List.range_succ, max_def, min_def]

/-- The track created on frame 1 of the demo scenario. -/
noncomputable def track0 : KalmanBoxTracker := KalmanBoxTracker.mk0 demoBox 1 7 0

/-- The same track after frame 2 (predict then matched update). -/
noncomputable def track1 : KalmanBoxTracker := ((track0.predict).1).update demoBox

/-- The same track after frame 3. -/
noncomputable def track2 : KalmanBoxTracker := ((track1.predict).1).update demoBox

theorem track0_x : track0.x = stateVec0 := by
  unfold track0 KalmanBoxTracker.mk0
  rw [convert_z_demo]
  rfl

theorem track1_x : track1.x = stateVec0 :=
  (stationary_update _ (stationary_predict track0 track0_x).1).1

theorem track2_x : track2.x = stateVec0 :=
  (stationary_update _ (stationary_predict track1 track1_x).1).1

theorem reportCond_track0 : reportCond 3 1 track0 := by
  refine ⟨?_, Or.inr ?_⟩ <;>
    simp [track0, KalmanBoxTracker.mk0]

theorem makeRow_demo (t : KalmanBoxTracker) (hx : t.x = stateVec0)
    (hid : t.id = 0) (hcls : t.cls = 7) (hconf : t.conf = 1) :
    makeRow t = [0, 0, 4, 2, 1, 7, 1] := by
  unfold makeRow
  rw [stationary_get_state t hx, hid, hcls, hconf]
  unfold demoBox
  norm_num

theorem demo_frame1 :
    sortUpdate demoState [demoDet] =
      (⟨[track0], 1, 1, 3, 3/10, 1⟩, [[0, 0, 4, 2, 1, 7, 1]]) := by
  unfold sortUpdate liveAfterAssoc demoState
  simp only [List.map_nil, List.map_cons]
  rw [associate_no_trackers]
  simp only [List.length_cons, List.length_nil, List.range_succ,
    List.range_zero, List.nil_append, List.foldl_nil, List.foldl_cons,
    List.getD_cons_zero]
  have hdd : KalmanBoxTracker.mk0 demoDet.box demoDet.score demoDet.class_id 0 =
      track0 := rfl
  rw [hdd]
  have hrow : List.filterMap
      (fun t => if reportCond 3 (0 + 1) t then some (makeRow t) else none)
      [track0].reverse = [[(0:ℝ), 0, 4, 2, 1, 7, 1]] := by
    simp only [List.reverse_cons, List.reverse_nil, List.nil_append,
      List.filterMap_cons, List.filterMap_nil]
    rw [if_pos reportCond_track0]
    rw [makeRow_demo track0 track0_x rfl rfl rfl]
  have hfil : List.filter
      (fun t => decide (¬ (1:ℤ) < (t.time_since_update : ℤ))) [track0] =
      [track0] := by
    simp [track0, KalmanBoxTracker.mk0]
  rw [hrow, hfil]

theorem track1_counters :
    track1.time_since_update = 0 ∧ track1.hit_streak = 1 ∧ track1.id = 0 ∧
    track1.cls = 7 ∧ track1.conf = 1 := by
  refine ⟨rfl, ?_, rfl, rfl, rfl⟩
  simp [track1, track0, KalmanBoxTracker.update, KalmanBoxTracker.predict,
    KalmanBoxTracker.mk0]

theorem track2_counters :
    track2.time_since_update = 0 ∧ track2.hit_streak = 2 ∧ track2.id = 0 ∧
    track2.cls = 7 ∧ track2.conf = 1 := by
  refine ⟨rfl, ?_, rfl, rfl, rfl⟩
  simp [track2, track1, track0, KalmanBoxTracker.update,
    KalmanBoxTracker.predict, KalmanBoxTracker.mk0]

theorem reportCond_track1 : reportCond 3 2 track1 := by
  refine ⟨?_, Or.inr ?_⟩
  · rw [track1_counters.1]
    norm_num
  · norm_num

theorem reportCond_track2 : reportCond 3 3 track2 := by
  refine ⟨?_, Or.inr ?_⟩
  · rw [track2_counters.1]
    norm_num
  · norm_num

theorem demo_frame2 :
    sortUpdate ⟨[track0], 1, 1, 3, 3/10, 1⟩ [demoDet] =
      (⟨[track1], 2, 1, 3, 3/10, 1⟩, [[0, 0, 4, 2, 1, 7, 1]]) := by
  unfold sortUpdate liveAfterAssoc
  simp only [List.map_cons, List.map_nil]
  have hb : (track0.predict).2 = demoBox := (stationary_predict track0 track0_x).2.1
  rw [hb]
  have hdb : [demoDet.box] = [demoBox] := rfl
  rw [hdb, associate_demo]
  simp only [List.foldl_cons, List.foldl_nil, List.getD_cons_zero,
    List.set_cons_zero]
  have ht1 : (track0.predict).1.update demoDet.box = track1 := rfl
  rw [ht1]
  have hrow : List.filterMap
      (fun t => if reportCond 3 (1 + 1) t then some (makeRow t) else none)
      [track1].reverse = [[(0:ℝ), 0, 4, 2, 1, 7, 1]] := by
    simp only [List.reverse_cons, List.reverse_nil, List.nil_append,
      List.filterMap_cons, List.filterMap_nil]
    rw [if_pos reportCond_track1]
    rw [makeRow_demo track1 track1_x track1_counters.2.2.1
      track1_counters.2.2.2.1 track1_counters.2.2.2.2]
  have hfil : List.filter
      (fun t => decide (¬ (1:ℤ) < (t.time_since_update : ℤ))) [track1] =
      [track1] := by
    have h0 : track1.time_since_update = 0 := track1_counters.1
    simp [h0]
  rw [hrow, hfil]

theorem demo_frame3 :
    sortUpdate ⟨[track1], 2, 1, 3, 3/10, 1⟩ [demoDet] =
      (⟨[track2], 3, 1, 3, 3/10, 1⟩, [[0, 0, 4, 2, 1, 7, 1]]) := by
  unfold sortUpdate liveAfterAssoc
  simp only [List.map_cons, List.map_nil]
  have hb : (track1.predict).2 = demoBox := (stationary_predict track1 track1_x).2.1
  rw [hb]
  have hdb : [demoDet.box] = [demoBox] := rfl
  rw [hdb, associate_demo]
  simp only [List.foldl_cons, List.foldl_nil, List.getD_cons_zero,
    List.set_cons_zero]
  have ht2 : (track1.predict).1.update demoDet.box = track2 := rfl
  rw [ht2]
  have hrow : List.filterMap
      (fun t => if reportCond 3 (2 + 1) t then some (makeRow t) else none)
      [track2].reverse = [[(0:ℝ), 0, 4, 2, 1, 7, 1]] := by
    simp only [List.reverse_cons, List.reverse_nil, List.nil_append,
      List.filterMap_cons, List.filterMap_nil]
    rw [if_pos reportCond_track2]
    rw [makeRow_demo track2 track2_x track2_counters.2.2.1
      track2_counters.2.2.2.1 track2_counters.2.2.2.2]
  have hfil : List.filter
      (fun t => decide (¬ (1:ℤ) < (t.time_since_update : ℤ))) [track2] =
      [track2] := by
    have h0 : track2.time_since_update = 0 := track2_counters.1
    simp [h0]
  rw [hrow, hfil]

theorem track2p_counters :
    ((track1.predict).1).time_since_update = 1 ∧
    ((track1.predict).1).hit_streak = 1 := by
  constructor
  · show track1.time_since_update + 1 = 1
    rw [track1_counters.1]
  · show (if 0 < track1.time_since_update then 0 else track1.hit_streak) = 1
    rw [track1_counters.1, track1_counters.2.1]
    norm_num

theorem demo_frame3_empty :
    sortUpdate ⟨[track1], 2, 1, 3, 3/10, 1⟩ [] =
      (⟨[(track1.predict).1], 3, 1, 3, 3/10, 1⟩, []) := by
  unfold sortUpdate liveAfterAssoc
  simp only [List.map_cons, List.map_nil]
  have hb : (track1.predict).2 = demoBox := (stationary_predict track1 track1_x).2.1
  rw [hb, associate_no_dets]
  simp only [List.foldl_nil]
  have hrow : List.filterMap
      (fun t => if reportCond 3 (2 + 1) t then some (makeRow t) else none)
      [(track1.predict).1].reverse = ([] : List (List ℝ)) := by
    simp only [List.reverse_cons, List.reverse_nil, List.nil_append,
      List.filterMap_cons, List.filterMap_nil]
    rw [if_neg]
    intro hc
    have := hc.1
    rw [track2p_counters.1] at this
    norm_num at this
  have hfil : List.filter
      (fun t => decide (¬ (1:ℤ) < (t.time_since_update : ℤ)))
      [(track1.predict).1] = [(track1.predict).1] := by
    simp [track2p_counters.1]
  rw [hrow, hfil]

theorem filterMap_report (mh : ℤ) (fc : ℕ) (l : List KalmanBoxTracker) :
    l.filterMap (fun t => if reportCond mh fc t then some (makeRow t) else none) =
      (l.filter (fun t => decide (reportCond mh fc t))).map makeRow := by
  induction l with
  | nil => rfl
  | cons t rest ih =>
      by_cases h : reportCond mh fc t
      · simp [List.filterMap_cons, List.filter_cons, h, ih]
      · simp [List.filterMap_cons, List.filter_cons, h, ih]

theorem sortUpdate_rows (s : SortTracker) (dets : List Det) :
    (sortUpdate s dets).2 =
      (((liveAfterAssoc { s with frame_count := s.frame_count + 1 } dets).1.reverse.filter
        (fun t => decide (reportCond s.min_hits (s.frame_count + 1) t))).map
          makeRow) := by
  unfold sortUpdate
  exact filterMap_report _ _ _

/-- Claim C1: the report rule of the orchestrator: the emitted rows are
exactly the rows `[x1, y1, x2, y2, id+1, class_id, confidence]` of the live
tracks passing `time_since_update < 1 ∧ (hit_streak ≥ min_hits ∨
frame_count ≤ min_hits)`; concretely, with `min_hits = 3` and `max_age = 1`
a track created on frame 1 from an unchanging re-fed box is reported on
frames 1, 2 and 3. -/
theorem claim_C1_report_rule :
    (∀ (s : SortTracker) (dets : List Det),
      (sortUpdate s dets).2 =
        (((liveAfterAssoc { s with frame_count := s.frame_count + 1 }
            dets).1.reverse.filter
          (fun t => decide (reportCond s.min_hits (s.frame_count + 1) t))).map
            makeRow)) ∧
    (sortUpdate demoState [demoDet]).2 = [[0, 0, 4, 2, 1, 7, 1]] ∧
    (sortUpdate (sortUpdate demoState [demoDet]).1 [demoDet]).2 =
      [[0, 0, 4, 2, 1, 7, 1]] ∧
    (sortUpdate (sortUpdate (sortUpdate demoState [demoDet]).1 [demoDet]).1
        [demoDet]).2 = [[0, 0, 4, 2, 1, 7, 1]] := by
  refine ⟨sortUpdate_rows, ?_, ?_, ?_⟩
  · rw [demo_frame1]
  · simp only [demo_frame1, demo_frame2]
  · simp only [demo_frame1, demo_frame2, demo_frame3]

/-- Claim C3 counterexample: drive the orchestrator for three frames
(detection, detection, empty); the surviving track of the returned state
has `time_since_update = 1` together with `hit_streak = 1`, so a positive
staleness counter coexists with a positive streak at an observable point. -/
theorem claim_C3_counterexample :
    0 < ((sortUpdate (sortUpdate (sortUpdate demoState [demoDet]).1
        [demoDet]).1 []).1.trackers.getD 0 default).time_since_update ∧
    0 < ((sortUpdate (sortUpdate (sortUpdate demoState [demoDet]).1
        [demoDet]).1 []).1.trackers.getD 0 default).hit_streak := by
  simp only [demo_frame1, demo_frame2, demo_frame3_empty, List.getD_cons_zero]
  constructor
  · rw [track2p_counters.1]
    norm_num
  · rw [track2p_counters.2]
    norm_num

/-- Claim C9: the reported rows are ordered in reverse of the live-track
collection's storage order: the report equals the reverse of the
storage-order walk, so the most recently created reportable track comes
first. -/
theorem claim_C9_reverse_order (s : SortTracker) (dets : List Det) :
    (sortUpdate s dets).2 =
      (((liveAfterAssoc { s with frame_count := s.frame_count + 1 }
          dets).1.filter
        (fun t => decide (reportCond s.min_hits (s.frame_count + 1) t))).map
          makeRow).reverse := by
  rw [sortUpdate_rows, List.filter_reverse, List.map_reverse]

end DemoScenario

section FastPathEquiv

variable {α : Type} [LinearOrderedField α]

theorem pickBest_le (cost : ℕ → ℕ → α) :
    ∀ (cs : List (List (ℕ × ℕ))) (c : List (ℕ × ℕ)),
      ∀ y ∈ c :: cs, matchingCost cost (pickBest cost c cs) ≤ matchingCost cost y := by
  intro cs
  induction cs with
  | nil =>
      intro c y hy
      rcases List.mem_cons.mp hy with rfl | hy
      · exact le_refl _
      · simp at hy
  | cons z zs ih =>
      intro c y hy
      have hstep : pickBest cost c (z :: zs) =
          pickBest cost (if matchingCost cost z < matchingCost cost c then z else c) zs := by
        simp only [pickBest, List.foldl_cons]
      rw [hstep]
      have hc' : matchingCost cost
          (pickBest cost (if matchingCost cost z < matchingCost cost c then z else c) zs) ≤
          matchingCost cost (if matchingCost cost z < matchingCost cost c then z else c) :=
        ih _ _ (List.mem_cons_self _ _)
      rcases List.mem_cons.mp hy with rfl | hy
      · refine le_trans hc' ?_
        by_cases hzc : matchingCost cost z < matchingCost cost y
        · rw [if_pos hzc]
          exact le_of_lt hzc
        · rw [if_neg hzc]
      · rcases List.mem_cons.mp hy with rfl | hy
        · refine le_trans hc' ?_
          by_cases hzc : matchingCost cost y < matchingCost cost c
          · rw [if_pos hzc]
          · rw [if_neg hzc]
            exact not_lt.mp hzc
        · exact ih _ y (List.mem_cons_of_mem _ hy)

theorem pickBest_eq_unique (cost : ℕ → ℕ → α) (c : List (ℕ × ℕ))
    (cs : List (List (ℕ × ℕ))) (x : List (ℕ × ℕ)) (hx : x ∈ c :: cs)
    (hmin : ∀ y ∈ c :: cs, y = x ∨ matchingCost cost x < matchingCost cost y) :
    pickBest cost c cs = x := by
  rcases hmin _ (pickBest_mem cost cs c) with he | hlt
  · exact he
  · exact absurd (pickBest_le cost cs c x hx) (not_le.mpr hlt)

theorem argminCost_map_unique (cost : ℕ → ℕ → α) (g : ℕ → List (ℕ × ℕ))
    (l : List ℕ) (c0 : ℕ) (hc0 : c0 ∈ l)
    (hmin : ∀ c ∈ l, g c = g c0 ∨
      matchingCost cost (g c0) < matchingCost cost (g c)) :
    argminCost cost (l.map g) = some (g c0) := by
  cases l with
  | nil => simp at hc0
  | cons c cs =>
      simp only [List.map_cons, argminCost, Option.some.injEq]
      refine pickBest_eq_unique cost (g c) (cs.map g) (g c0) ?_ ?_
      · rw [← List.map_cons]
        exact List.mem_map_of_mem g hc0
      · intro y hy
        rw [← List.map_cons] at hy
        rcases List.mem_map.mp hy with ⟨d, hd, rfl⟩
        exact hmin d hd

theorem flatMap_single {β γ : Type} (l : List β) (g : β → γ) :
    l.flatMap (fun x => [g x]) = l.map g := by
  induction l with
  | nil => rfl
  | cons x xs ih => simp [List.flatMap_cons, ih]

theorem allMatchings_one (r : ℕ) (cols : List ℕ) :
    allMatchings [r] cols = cols.map (fun c => [(r, c)]) := by
  have h0 : ∀ x : List ℕ, allMatchings ([] : List ℕ) x = [[]] := fun x => rfl
  have h1 : allMatchings [r] cols =
      cols.flatMap (fun c => [[(r, c)]]) := by
    simp only [allMatchings, h0, List.map_cons, List.map_nil]
  rw [h1, flatMap_single]

theorem filter_length_one (p : ℕ → Bool) (m : ℕ)
    (h : ((List.range m).filter p).length = 1) :
    ∃ j0, (List.range m).filter p = [j0] ∧ j0 < m ∧ p j0 = true ∧
      ∀ c, c ≠ j0 → c < m → p c = false := by
  rcases hc : (List.range m).filter p with _ | ⟨j0, rest⟩
  · rw [hc] at h
    simp at h
  · rw [hc] at h
    simp only [List.length_cons] at h
    have hrest : rest = [] := List.eq_nil_of_length_eq_zero (by omega)
    subst hrest
    have hj0 : j0 ∈ (List.range m).filter p := by
      rw [hc]
      exact List.mem_cons_self _ _
    have hj0m := List.mem_filter.mp hj0
    refine ⟨j0, rfl, List.mem_range.mp hj0m.1, hj0m.2, ?_⟩
    intro c hcne hcm
    cases hb : p c with
    | false => rfl
    | true =>
        exfalso
        have hmem : c ∈ (List.range m).filter p :=
          List.mem_filter.mpr ⟨List.mem_range.mpr hcm, hb⟩
        rw [hc] at hmem
        exact hcne (List.mem_singleton.mp hmem)

theorem fastpath_one_row (M : ℕ → ℕ → α) (τ : α) (m : ℕ) (hm : 0 < m)
    (hfp : fastPathCond M τ 1 m) :
    whereTrue M τ 1 m = linear_assignment (fun i j => -(M i j)) 1 m := by
  have hr1 : List.range 1 = [0] := rfl
  have hrow : ((List.range m).filter (fun j => decide (τ < M 0 j))).length = 1 := by
    have h1 := hfp.1
    rw [hr1] at h1
    simp only [List.map_cons, List.map_nil, List.foldr_cons, List.foldr_nil,
      Nat.max_zero] at h1
    exact h1
  obtain ⟨j0, hF, hj0m, hpj0, hother⟩ :=
    filter_length_one (fun j => decide (τ < M 0 j)) m hrow
  have hwt : whereTrue M τ 1 m = [(0, j0)] := by
    unfold whereTrue
    rw [hr1]
    simp only [List.flatMap_cons, List.flatMap_nil, List.append_nil]
    rw [hF]
    rfl
  have hla : linear_assignment (fun i j => -(M i j)) 1 m = [(0, j0)] := by
    unfold linear_assignment
    rw [if_pos (show 1 ≤ m from hm), hr1, allMatchings_one]
    rw [argminCost_map_unique (fun i j => -(M i j)) (fun c => [(0, c)])
      (List.range m) j0 (List.mem_range.mpr hj0m) ?_]
    · rfl
    · intro c hcmem
      by_cases hcj : c = j0
      · subst hcj
        exact Or.inl rfl
      · right
        have hc := hother c hcj (List.mem_range.mp hcmem)
        have hle : ¬ τ < M 0 c := by simpa using hc
        have hgt : τ < M 0 j0 := by simpa using hpj0
        have hlt : M 0 c < M 0 j0 := lt_of_le_of_lt (not_lt.mp hle) hgt
        simp only [matchingCost, List.map_cons, List.map_nil, List.sum_cons,
          List.sum_nil, add_zero]
        exact neg_lt_neg hlt
  rw [hwt, hla]

theorem whereTrue_col0 (M : ℕ → ℕ → α) (τ : α) (n : ℕ) :
    whereTrue M τ n 1 =
      ((List.range n).filter (fun i => decide (τ < M i 0))).map
        (fun i => (i, 0)) := by
  unfold whereTrue
  have hinner : ∀ i : ℕ, ((List.range 1).filter (fun j => τ < M i j)).map
      (fun j => (i, j)) = if τ < M i 0 then [(i, 0)] else [] := by
    intro i
    by_cases hi : τ < M i 0
    · rw [if_pos hi]
      show (List.filter (fun j => decide (τ < M i j)) [0]).map _ = _
      rw [List.filter_cons]
      simp [hi]
    · rw [if_neg hi]
      show (List.filter (fun j => decide (τ < M i j)) [0]).map _ = _
      rw [List.filter_cons]
      simp [hi]
  have key : ∀ l : List ℕ, l.flatMap (fun i => ((List.range 1).filter
      (fun j => τ < M i j)).map (fun j => (i, j))) =
      (l.filter (fun i => decide (τ < M i 0))).map (fun i => (i, 0)) := by
    intro l
    induction l with
    | nil => rfl
    | cons i rest ih =>
        rw [List.flatMap_cons, hinner i, ih, List.filter_cons]
        by_cases hi : τ < M i 0
        · simp [hi]
        · simp [hi]
  exact key (List.range n)

theorem fastpath_one_col (M : ℕ → ℕ → α) (τ : α) (n : ℕ) (hn : 1 < n)
    (hfp : fastPathCond M τ n 1) :
    whereTrue M τ n 1 = linear_assignment (fun i j => -(M i j)) n 1 := by
  have hr1 : List.range 1 = [0] := rfl
  have hcol : ((List.range n).filter (fun i => decide (τ < M i 0))).length = 1 := by
    have h1 := hfp.2
    rw [hr1] at h1
    simp only [List.map_cons, List.map_nil, List.foldr_cons, List.foldr_nil,
      Nat.max_zero] at h1
    exact h1
  obtain ⟨i0, hG, hi0n, hpi0, hother⟩ :=
    filter_length_one (fun i => decide (τ < M i 0)) n hcol
  have hwt : whereTrue M τ n 1 = [(i0, 0)] := by
    rw [whereTrue_col0, hG]
    rfl
  have hla : linear_assignment (fun i j => -(M i j)) n 1 = [(i0, 0)] := by
    unfold linear_assignment
    rw [if_neg (show ¬ n ≤ 1 by omega), hr1, allMatchings_one, List.map_map]
    have hcomp : (List.map (Prod.swap : ℕ × ℕ → ℕ × ℕ) ∘
        fun c => ([((0 : ℕ), c)] : List (ℕ × ℕ))) =
        (fun c => [(c, (0 : ℕ))]) := by
      funext c
      rfl
    rw [hcomp]
    rw [argminCost_map_unique (fun i j => -(M i j)) (fun c => [(c, 0)])
      (List.range n) i0 (List.mem_range.mpr hi0n) ?_]
    · rfl
    · intro c hcmem
      by_cases hci : c = i0
      · subst hci
        exact Or.inl rfl
      · right
        have hc := hother c hci (List.mem_range.mp hcmem)
        have hle : ¬ τ < M c 0 := by simpa using hc
        have hgt : τ < M i0 0 := by simpa using hpi0
        have hlt : M c 0 < M i0 0 := lt_of_le_of_lt (not_lt.mp hle) hgt
        simp only [matchingCost, List.map_cons, List.map_nil, List.sum_cons,
          List.sum_nil, add_zero]
        exact neg_lt_neg hlt
  rw [hwt, hla]

/-- Claim C5 (amended): the unambiguous-overlap fast path coincides with
the always-general exact solver whenever there is at most one detection or
at most one track; with two or more on each side the shortcut can change
the observable output, as the counterexample shows. -/
theorem claim_C5_amended (dets trks : List (Box α)) (τ : α)
    (h : min dets.length trks.length ≤ 1) :
    associate_detections_to_trackers dets trks τ =
      associateGeneral dets trks τ := by
  unfold associate_detections_to_trackers associateGeneral
  by_cases h0 : trks.length = 0
  · rw [if_pos h0, if_pos h0]
  · rw [if_neg h0, if_neg h0]
    have hms : matchedStep dets trks τ = matchedStepGeneral dets trks τ := by
      unfold matchedStep matchedStepGeneral
      by_cases hmin : 0 < min dets.length trks.length
      · rw [if_pos hmin, if_pos hmin]
        by_cases hfp : fastPathCond (iouMatrix dets trks) τ dets.length
            trks.length
        · rw [if_pos hfp]
          have hd : 0 < dets.length := lt_of_lt_of_le hmin (min_le_left _ _)
          have ht : 0 < trks.length := lt_of_lt_of_le hmin (min_le_right _ _)
          by_cases hd1 : dets.length = 1
          · rw [hd1] at hfp ⊢
            exact fastpath_one_row (iouMatrix dets trks) τ trks.length ht hfp
          · have ht1 : trks.length = 1 := by omega
            have hd2 : 1 < dets.length := by omega
            rw [ht1] at hfp ⊢
            exact fastpath_one_col (iouMatrix dets trks) τ dets.length hd2 hfp
        · rw [if_neg hfp]
      · rw [if_neg hmin, if_neg hmin]
    rw [hms]

/-- Witness for C5 (amended) at one detection and one track. -/
theorem claim_C5_amended_witness :
    min 1 1 ≤ 1 ∧
    associate_detections_to_trackers [(⟨0, 0, 2, 2⟩ : Box ℚ)]
        [(⟨0, 0, 2, 2⟩ : Box ℚ)] (3/10) =
      associateGeneral [(⟨0, 0, 2, 2⟩ : Box ℚ)] [(⟨0, 0, 2, 2⟩ : Box ℚ)]
        (3/10) :=
  ⟨by norm_num,
   claim_C5_amended [(⟨0, 0, 2, 2⟩ : Box ℚ)] [(⟨0, 0, 2, 2⟩ : Box ℚ)] (3/10)
     (by norm_num)⟩

end FastPathEquiv
